import Mathlib

/-!
Verification of the LocalWhisper core against its specification.

The development shallowly embeds the relevant Python code:

* `localwhisper/core/hotkey_manager.py` — `HotkeyCombo.from_string` /
  `to_string`, and the `HotkeyManager` press/release state machine;
* `localwhisper/core/audio_engine.py` — the `AudioEngine` recording buffer;
* `localwhisper/core/transcription_engine.py` — device/compute-type
  auto-detection and the segment-aggregation part of `transcribe`;
* `localwhisper/app.py` — the `LocalWhisperApp` orchestrator
  (`_toggle_recording`, `_on_recording_started`, `_on_recording_stopped`,
  `_on_transcription_complete`, `_on_transcription_error`).

Modelling conventions: Python strings are lists of characters (`PyStr`);
Python's `str.lower` is modelled character-wise by `Char.toLower`, which
agrees with it on ASCII (all strings the code manipulates are ASCII);
floating-point times, samples and confidences are modelled as rationals —
only order comparisons and exact arithmetic on them occur in the embedded
code; Python sets are `Finset`s.  Qt signal emission between slots living
on the same (main) thread is a direct call, so the orchestrator's handlers
are composed directly, and cross-thread deliveries (transcription
completion/failure) are separate events of the serialized event loop.
-/

namespace LocalWhisper


/-- Python strings, modelled as lists of characters. -/
abbrev PyStr := List Char

/-- Python `str.lower`, character-wise (ASCII-faithful). -/
def pyLower (s : PyStr) : PyStr := s.map Char.toLower

/-- Python `str.replace(" ", "")`: removes every space character. -/
def removeSpaces (s : PyStr) : PyStr := s.filter (fun c => c ≠ ' ')

/-- Python `str.split(sep)` for a single-character separator: always returns
at least one part, and `"".split(sep) == [""]`.  `List.splitOn` has exactly
these semantics. -/
def pySplit (sep : Char) (s : PyStr) : List PyStr := s.splitOn sep

/-- Python `sep.join(parts)` for a single-character separator. -/
def pyJoin (sep : Char) (parts : List PyStr) : PyStr :=
  [sep].intercalate parts

/-- Python `str.strip()` restricted to ASCII whitespace. -/
def pyStrip (s : PyStr) : PyStr :=
  (s.dropWhile Char.isWhitespace).reverse.dropWhile Char.isWhitespace |>.reverse

/-! Python's `sorted` on strings: lexicographic comparison of code points.
`strLeB` is the boolean comparison, `pySorted` sorts the elements of a set,
which is exactly what `sorted(self.modifiers)` computes. -/

/-- Lexicographic code-point comparison of strings, as Python's `<=`. -/

def strLeB : PyStr → PyStr → Bool
  | [], _ => true
  | _ :: _, [] => false
  | a :: as, b :: bs =>
    if a.toNat < b.toNat then true
    else if a = b then strLeB as bs
    else false

/-- Propositional form of `strLeB`. -/
def strLe (a b : PyStr) : Prop := strLeB a b = true

instance : DecidableRel strLe :=
  fun a b => inferInstanceAs (Decidable (strLeB a b = true))

instance : IsTotal PyStr strLe where
  total := by
    intro a b
    induction a generalizing b with
    | nil => left; rfl
    | cons x xs ih =>
      cases b with
      | nil => right; rfl
      | cons y ys =>
        by_cases hxy : x.toNat < y.toNat
        · left; simp [strLe, strLeB, hxy]
        · by_cases hyx : y.toNat < x.toNat
          · right; simp [strLe, strLeB, hyx]
          · have hx : x = y := by
              have hn : x.toNat = y.toNat := by omega
              rw [← Char.ofNat_toNat x, ← Char.ofNat_toNat y, hn]
            subst hx
            rcases ih ys with h | h
            · left; simpa [strLe, strLeB] using h
            · right; simpa [strLe, strLeB] using h

instance : IsTrans PyStr strLe where
  trans := by
    intro a b c hab hbc
    induction a generalizing b c with
    | nil => rfl
    | cons x xs ih =>
      cases b with
      | nil => simp [strLe, strLeB] at hab
      | cons y ys =>
        cases c with
        | nil => simp [strLe, strLeB] at hbc
        | cons z zs =>
          simp only [strLe, strLeB] at hab hbc ⊢
          by_cases hxy : x.toNat < y.toNat <;> by_cases hyz : y.toNat < z.toNat
          · simp [show x.toNat < z.toNat by omega]
          · rw [if_neg hyz] at hbc
            by_cases hyzeq : y = z
            · subst hyzeq; simp [hxy]
            · simp [hyzeq] at hbc
          · rw [if_neg hxy] at hab
            by_cases hxyeq : x = y
            · subst hxyeq; simp [hyz]
            · simp [hxyeq] at hab
          · rw [if_neg hxy] at hab
            rw [if_neg hyz] at hbc
            by_cases hxyeq : x = y
            · subst hxyeq
              by_cases hyzeq : x = z
              · subst hyzeq
                simp only [if_neg hxy, if_pos rfl] at hab hbc ⊢
                exact ih ys zs (by simpa using hab) (by simpa using hbc)
              · simp [hyzeq] at hbc
            · simp [hxyeq] at hab

instance : IsAntisymm PyStr strLe where
  antisymm := by
    intro a b hab hba
    induction a generalizing b with
    | nil =>
      cases b with
      | nil => rfl
      | cons y ys => simp [strLe, strLeB] at hba
    | cons x xs ih =>
      cases b with
      | nil => simp [strLe, strLeB] at hab
      | cons y ys =>
        simp only [strLe, strLeB] at hab hba
        by_cases hxy : x.toNat < y.toNat
        · by_cases hyx : y.toNat < x.toNat
          · omega
          · rw [if_neg hyx] at hba
            by_cases hyxeq : y = x
            · subst hyxeq; omega
            · simp [hyxeq] at hba
        · rw [if_neg hxy] at hab
          by_cases hxyeq : x = y
          · subst hxyeq
            simp only [if_pos rfl] at hab hba
            rw [ih ys (by simpa [strLe] using hab) (by simpa [strLe] using hba)]
          · simp [hxyeq] at hab

/-- Python `sorted` applied to a set of strings: the unique `strLe`-sorted
enumeration of the set, computed with a structurally recursive insertion
sort lifted to the underlying multiset. -/
def pySorted (s : Finset PyStr) : List PyStr :=
  Quot.liftOn s.val (fun l => List.insertionSort strLe l) (fun a b h =>
    List.eq_of_perm_of_sorted
      ((List.perm_insertionSort strLe a).trans
        ((Quotient.exact (Quot.sound h)).trans (List.perm_insertionSort strLe b).symm))
      (List.sorted_insertionSort strLe a) (List.sorted_insertionSort strLe b))

/-! The hotkey combo parser, from `localwhisper/core/hotkey_manager.py`.
`HotkeyCombo.from_string` lower-cases the string, removes spaces, splits on
`'+'`, collects recognized modifier tokens (normalized) into a set and takes
the last unrecognized token as the primary key; it raises `ValueError` when
no primary key was seen, which the embedding models as `none`.  The flag
`darwin` models `platform.system() == "Darwin"`. -/

/-- The recognized modifier tokens (the set `modifier_names` in `from_string`). -/

def modifier_names : List PyStr :=
  ["alt".toList, "ctrl".toList, "control".toList, "shift".toList,
   "cmd".toList, "win".toList, "meta".toList]

/-- Modifier-name normalization performed inside the parse loop:
`"control"` becomes `"ctrl"`; `"cmd"`, `"win"` and `"meta"` collapse to
`"cmd"` on Darwin and `"win"` elsewhere. -/
def normalize_modifier (darwin : Bool) (part : PyStr) : PyStr :=
  if part = "control".toList then "ctrl".toList
  else if part = "cmd".toList ∨ part = "win".toList ∨ part = "meta".toList then
    (if darwin then "cmd".toList else "win".toList)
  else part

/-- A parsed hotkey combination: a set of modifiers plus one primary key.
Dataclass equality compares the modifier set and the key. -/
structure HotkeyCombo where
  modifiers : Finset PyStr
  key : PyStr

instance : DecidableEq HotkeyCombo := fun a b =>
  decidable_of_iff (a.modifiers = b.modifiers ∧ a.key = b.key)
    (by cases a; cases b; simp)

instance (priority := 1001) : DecidableEq (Option HotkeyCombo) := fun a b =>
  match a, b with
  | none, none => isTrue rfl
  | some x, some y => decidable_of_iff (x = y) (by simp)
  | none, some _ => isFalse (by simp)
  | some _, none => isFalse (by simp)

namespace HotkeyCombo

/-- One iteration of the `for part in parts` loop of `from_string`:
a recognized modifier is normalized and added to the set, any other token
overwrites the primary-key slot. -/
def parse_step (darwin : Bool) (acc : Finset PyStr × Option PyStr) (part : PyStr) :
    Finset PyStr × Option PyStr :=
  if part ∈ modifier_names then (insert (normalize_modifier darwin part) acc.1, acc.2)
  else (acc.1, some part)

/-- The whole parse loop, starting from an empty modifier set and no key. -/
def parse_parts (darwin : Bool) (parts : List PyStr) : Finset PyStr × Option PyStr :=
  parts.foldl (parse_step darwin) (∅, none)

/-- The final `if key is None: raise ... else return cls(...)` of
`from_string`; the raised `ValueError` is modelled as `none`. -/
def finish (acc : Finset PyStr × Option PyStr) : Option HotkeyCombo :=
  match acc.2 with
  | none => none
  | some k => some ⟨acc.1, k⟩

/-- Embedding of `HotkeyCombo.from_string`; `none` models the
`ValueError("... no key specified")` raised when every token is a modifier. -/
def from_string (darwin : Bool) (s : PyStr) : Option HotkeyCombo :=
  finish (parse_parts darwin (pySplit '+' (removeSpaces (pyLower s))))

/-- Embedding of `HotkeyCombo.to_string`: sorted modifiers followed by the
key, joined with `'+'` (Python `sorted` on strings is the lexicographic
code-point order, which is the `List Char` linear order). -/
def to_string (c : HotkeyCombo) : PyStr :=
  pyJoin '+' (pySorted c.modifiers ++ [c.key])

end HotkeyCombo

/-! Infrastructure for the `from_string`/`to_string` round trip. -/

/-- Characters that survive the lower-casing and space-stripping of
`from_string` unchanged and cannot be the separator. -/

def goodChar (c : Char) : Prop := c.toLower = c ∧ c ≠ ' ' ∧ c ≠ '+'

/-- A string of `goodChar`s. -/
def goodStr (p : PyStr) : Prop := ∀ c ∈ p, goodChar c

instance : DecidablePred goodChar := fun c =>
  inferInstanceAs (Decidable (c.toLower = c ∧ c ≠ ' ' ∧ c ≠ '+'))

instance : DecidablePred goodStr := fun p =>
  inferInstanceAs (Decidable (∀ c ∈ p, goodChar c))

/-- The modifier names a parsed combo can contain on each platform. -/
def normalized_names (darwin : Bool) : List PyStr :=
  ["alt".toList, "ctrl".toList, "shift".toList,
   if darwin then "cmd".toList else "win".toList]

/-! The `HotkeyManager` press/release state machine from
`localwhisper/core/hotkey_manager.py`.  A pynput key object is either a
`keyboard.Key` enum member (it has a `name` attribute) or a `KeyCode`
(it has `vk` and `char` attributes).  `vk = 0` models a falsy `vk`
(`None` or `0`), which the code treats identically. -/

inductive PynputKey
  | special (name : PyStr)
  | keycode (vk : Nat) (char : Option PyStr)

/-- Embedding of `HotkeyManager._get_modifier_name`: maps the left/right
variants of each modifier key to its canonical name (`cmd` keys map to
`"cmd"` on Darwin and `"win"` elsewhere); every other key is `None`. -/
def get_modifier_name (darwin : Bool) : PynputKey → Option PyStr
  | .special n =>
    if n = "alt".toList ∨ n = "alt_l".toList ∨ n = "alt_r".toList then
      some ("alt".toList)
    else if n = "ctrl".toList ∨ n = "ctrl_l".toList ∨ n = "ctrl_r".toList then
      some ("ctrl".toList)
    else if n = "shift".toList ∨ n = "shift_l".toList ∨ n = "shift_r".toList then
      some ("shift".toList)
    else if n = "cmd".toList ∨ n = "cmd_l".toList ∨ n = "cmd_r".toList then
      some (if darwin then "cmd".toList else "win".toList)
    else none
  | .keycode _ _ => none

/-- Python `str.isprintable`, restricted to ASCII. -/
def pyIsPrintable (c : Char) : Bool := 32 ≤ c.toNat && c.toNat ≤ 126

/-- Embedding of `HotkeyCombo.matches_pynput_key`: a named (special) key
matches by case-insensitive name; a `KeyCode` matches by virtual-key code
for letters (case-insensitively) and digits, falling back to the printable
single-character `char` attribute. -/
def matches_pynput_key (c : HotkeyCombo) : PynputKey → Bool
  | .special n =>
    if n ≠ [] then decide (pyLower n = pyLower c.key) else false
  | .keycode vk ch =>
    if vk ≠ 0 ∧ 65 ≤ vk ∧ vk ≤ 90 then
      decide (pyLower [Char.ofNat vk] = pyLower c.key)
    else if vk ≠ 0 ∧ 48 ≤ vk ∧ vk ≤ 57 then
      decide ([Char.ofNat vk] = c.key)
    else
      match ch with
      | some t =>
        if t ≠ [] ∧ t.length = 1 ∧ t.all pyIsPrintable then
          decide (pyLower t = pyLower c.key)
        else false
      | none => false

/-- The mutable state of a `HotkeyManager` (the listener plumbing is
omitted; `min_hold_time` is 0.15 s in the source). -/
structure HotkeyManager where
  hotkey : HotkeyCombo
  pressed_modifiers : Finset PyStr
  hotkey_active : Bool
  activation_time : ℚ
  min_hold_time : ℚ

/-- Callback invocations observable from outside: `on_press` (the
`Activated` event) and `on_release` (the `Deactivated` event). -/
inductive CbEvent
  | activated
  | deactivated
deriving DecidableEq

/-- Embedding of `HotkeyManager._trigger_release` at wall-clock time
`now`: under the lock, an active hotkey released before `min_hold_time`
has elapsed is treated as spurious (state unchanged, no callback);
otherwise the hotkey deactivates, the activation time resets and the
release callback fires once. -/
def trigger_release (m : HotkeyManager) (now : ℚ) : HotkeyManager × List CbEvent :=
  if m.hotkey_active then
    if now - m.activation_time < m.min_hold_time then (m, [])
    else ({m with hotkey_active := false, activation_time := 0}, [.deactivated])
  else (m, [])

/-- Embedding of `HotkeyManager._handle_press` at wall-clock time `now`. -/
def handle_press (darwin : Bool) (m : HotkeyManager) (k : PynputKey) (now : ℚ) :
    HotkeyManager × List CbEvent :=
  match get_modifier_name darwin k with
  | some md => ({m with pressed_modifiers := insert md m.pressed_modifiers}, [])
  | none =>
    if matches_pynput_key m.hotkey k then
      if m.pressed_modifiers = m.hotkey.modifiers then
        if m.hotkey_active then (m, [])
        else ({m with hotkey_active := true, activation_time := now}, [.activated])
      else (m, [])
    else (m, [])

/-- Embedding of `HotkeyManager._handle_release` at wall-clock time `now`:
modifier releases only update the tracked modifier set; a release of the
matching primary key while active defers to `_trigger_release`. -/
def handle_release (darwin : Bool) (m : HotkeyManager) (k : PynputKey) (now : ℚ) :
    HotkeyManager × List CbEvent :=
  match get_modifier_name darwin k with
  | some md => ({m with pressed_modifiers := m.pressed_modifiers.erase md}, [])
  | none =>
    if matches_pynput_key m.hotkey k then
      if m.hotkey_active then trigger_release m now
      else (m, [])
    else (m, [])

/-- A raw keyboard event as delivered (serially) by the pynput hook
thread, stamped with the wall-clock time at which it is handled. -/
inductive KeyEvent
  | press (k : PynputKey) (now : ℚ)
  | release (k : PynputKey) (now : ℚ)

/-- One keyboard event dispatched to the manager. -/
def hm_step (darwin : Bool) (m : HotkeyManager) : KeyEvent → HotkeyManager × List CbEvent
  | .press k now => handle_press darwin m k now
  | .release k now => handle_release darwin m k now

/-- A whole sequence of keyboard events, collecting callback invocations. -/
def hm_run (darwin : Bool) (m : HotkeyManager) : List KeyEvent → HotkeyManager × List CbEvent
  | [] => (m, [])
  | e :: es =>
    let r := hm_step darwin m e
    let rest := hm_run darwin r.1 es
    (rest.1, r.2 ++ rest.2)

/-- The hypothesis of claim C4 on an event sequence: whenever the primary
key (a non-modifier key matching the combo) is pressed, the set of
modifiers held at that moment differs from the combo's modifier set. -/
def no_full_match (darwin : Bool) : HotkeyManager → List KeyEvent → Prop
  | _, [] => True
  | m, e :: es =>
    (match e with
     | .press k _ =>
       get_modifier_name darwin k = none →
       matches_pynput_key m.hotkey k = true →
       m.pressed_modifiers ≠ m.hotkey.modifiers
     | .release _ _ => True) ∧
    no_full_match darwin (hm_step darwin m e).1 es

/-! The `AudioEngine` of `localwhisper/core/audio_engine.py`.  Samples are
rationals (float32 values; only copying, scaling by the gain and length
arithmetic occur).  `audio_buffer` is the `deque(maxlen=30*sample_rate)`,
newest samples at the end. -/

structure AudioEngine where
  sample_rate : Nat
  gain : ℚ
  is_recording : Bool
  audio_buffer : List ℚ

/-- Embedding of `AudioEngine.start_recording`: a re-entrant call while
already recording is a no-op; otherwise the buffer is cleared and the
stream started (backend plumbing omitted). -/
def start_recording (e : AudioEngine) : AudioEngine :=
  if e.is_recording then e
  else {e with audio_buffer := [], is_recording := true}

/-- Embedding of the audio-callback body (both backends): the chunk is
scaled by the gain and appended to the deque, which retains only the last
`30 * sample_rate` samples.  The callback only fires while the stream is
open, i.e. while recording. -/
def capture_chunk (e : AudioEngine) (indata : List ℚ) : AudioEngine :=
  if e.is_recording then
    let data := indata.map (fun x => x * e.gain)
    let b := e.audio_buffer ++ data
    {e with audio_buffer := b.drop (b.length - 30 * e.sample_rate)}
  else e

/-- Embedding of `AudioEngine.stop_recording`: when not recording it
returns an empty array at once (touching nothing); otherwise it stops the
stream, copies the buffer out and clears it.  The embedding is a total
function because the not-recording path of the source performs no fallible
operation before returning. -/
def stop_recording (e : AudioEngine) : List ℚ × AudioEngine :=
  if ¬ e.is_recording then ([], e)
  else (e.audio_buffer, {e with is_recording := false, audio_buffer := []})

/-- Embedding of `AudioEngine.get_current_audio`: a copy of the current
buffer contents. -/
def get_current_audio (e : AudioEngine) : List ℚ := e.audio_buffer

/-! The `TranscriptionEngine` of
`localwhisper/core/transcription_engine.py`: device and compute-type
auto-detection, resolved once in `__init__` and cached in the `_device`
and `_compute_type` fields, plus the segment-aggregation part of
`transcribe`. -/

/-- The torch runtime environment as observed by the detection code:
whether `import torch` succeeds, what `torch.cuda.is_available()` returns,
whether `torch.cuda.get_device_properties(0)` succeeds, and the reported
total memory of device 0 in GiB. -/

structure TorchEnv where
  torch_available : Bool
  cuda_available : Bool
  device_props_ok : Bool
  gpu_mem_gb : ℚ

/-- Embedding of `TranscriptionEngine._detect_device`: `"cuda"` when torch
imports and reports CUDA, else `"cpu"` (the Apple-Silicon branch of the
source also returns `"cpu"`, like the fallthrough, so it collapses here). -/
def detect_device (env : TorchEnv) : PyStr :=
  if env.torch_available ∧ env.cuda_available then "cuda".toList
  else "cpu".toList

/-- Embedding of `TranscriptionEngine._detect_compute_type`: on `"cuda"`,
`"float16"` when device 0 reports at least 8 GiB and `"int8"` otherwise
(any exception while querying also yields `"int8"`); on any other device,
`"int8"`. -/
def detect_compute_type (env : TorchEnv) (device : PyStr) : PyStr :=
  if device = "cuda".toList then
    if env.torch_available ∧ env.device_props_ok then
      (if 8 ≤ env.gpu_mem_gb then "float16".toList else "int8".toList)
    else "int8".toList
  else "int8".toList

/-- Embedding of `TranscriptionEngine._detect_compute_config`: an explicit
(non-`"auto"`) setting wins, otherwise auto-detection runs. -/
def detect_compute_config (env : TorchEnv) (settings_device settings_compute : PyStr) :
    PyStr × PyStr :=
  let device := if settings_device ≠ "auto".toList then settings_device
    else detect_device env
  let compute := if settings_compute ≠ "auto".toList then settings_compute
    else detect_compute_type env device
  (device, compute)

/-- The engine state relevant to the claims: the cached device and compute
type (written only by `__init__`) and the model-loading state. -/
structure TranscriptionEngine where
  settings_device : PyStr
  settings_compute_type : PyStr
  device : PyStr
  compute_type : PyStr
  is_loaded : Bool
  model_name : Option PyStr

/-- Embedding of `TranscriptionEngine.__init__`: resolves the compute
configuration once and caches it on the instance. -/
def mk_engine (env : TorchEnv) (settings_device settings_compute : PyStr) :
    TranscriptionEngine :=
  let dc := detect_compute_config env settings_device settings_compute
  ⟨settings_device, settings_compute, dc.1, dc.2, false, none⟩

/-- Embedding of the state effect of `TranscriptionEngine.load_model`
(idempotent when the same model is already loaded); it never touches the
cached `_device`/`_compute_type`. -/
def load_model (eng : TranscriptionEngine) (name : PyStr) : TranscriptionEngine :=
  if eng.is_loaded ∧ eng.model_name = some name then eng
  else {eng with is_loaded := true, model_name := some name}

/-- One segment yielded by `WhisperModel.transcribe`, with its average
log-probability. -/
structure WhisperSegment where
  text : PyStr
  avg_logprob : ℚ

/-- Embedding of `TranscriptionResult`. -/
structure TranscriptionResult where
  text : PyStr
  language : PyStr
  confidence : ℚ
  duration : ℚ
  processing_time : ℚ
  is_partial : Bool

/-- Per-segment confidence in `transcribe`:
`np.exp(segment.avg_logprob) if segment.avg_logprob else 0.5` — note the
Python truthiness test, under which an `avg_logprob` of exactly `0.0`
also selects `0.5`.  `expf` abstracts `np.exp`. -/
def segment_confidence (expf : ℚ → ℚ) (seg : WhisperSegment) : ℚ :=
  if seg.avg_logprob ≠ 0 then expf seg.avg_logprob else 1/2

/-- The segment-collection loop of `transcribe`: concatenates segment
texts and accumulates total confidence and segment count. -/
def transcribe_collect (expf : ℚ → ℚ) (segs : List WhisperSegment) :
    PyStr × ℚ × Nat :=
  segs.foldl (fun acc seg =>
    (acc.1 ++ seg.text, acc.2.1 + segment_confidence expf seg, acc.2.2 + 1))
    ([], 0, 0)

/-- The result-assembly part of `TranscriptionEngine.transcribe`, given
the segments the model yielded: joined stripped text, average confidence
guarded by `segment_count > 0` (else `0.0`), and the audio duration
`len(audio) / 16000`. -/
def transcribe_aggregate (expf : ℚ → ℚ) (segs : List WhisperSegment)
    (audio_len : Nat) (lang : PyStr) (ptime : ℚ) : TranscriptionResult :=
  let col := transcribe_collect expf segs
  { text := pyStrip col.1
    language := lang
    confidence := if col.2.2 > 0 then col.2.1 / (col.2.2 : ℚ) else 0
    duration := (audio_len : ℚ) / 16000
    processing_time := ptime
    is_partial := false }

/-! The `LocalWhisperApp` orchestrator of `localwhisper/app.py`.  All the
handlers below run on the Qt main thread, one event at a time; signal
emissions between same-thread slots are direct calls, so
`_toggle_recording` invokes the start/stop handlers synchronously, while
worker-thread completion/failure arrive as later queued events.  The sink
interactions the claims observe are recorded in the state: audio arrays
handed to `TranscriptionEngine.transcribe` (`dispatched`), texts passed to
`TextInjector.inject_text` (`injections`) and entries passed to
`HistoryManager.add_entry` (`history`). -/

structure HistoryEntry where
  text : PyStr
  duration : ℚ
  confidence : ℚ
  language : PyStr
  model : PyStr

structure LocalWhisperApp where
  is_recording : Bool
  is_processing : Bool
  audio_engine : AudioEngine
  dispatched : List (List ℚ)
  injections : List PyStr
  history : List HistoryEntry
  config_language : PyStr
  config_model_name : PyStr

/-- Embedding of `LocalWhisperApp._on_recording_started`: marks the app
recording and starts audio capture (sounds/overlay/tray omitted). -/
def on_recording_started (s : LocalWhisperApp) : LocalWhisperApp :=
  let s1 := {s with is_recording := true}
  {s1 with audio_engine := start_recording s1.audio_engine}

/-- Embedding of `LocalWhisperApp._on_recording_stopped`: guarded on
`_is_recording`; enters processing, stops capture, and either returns
straight to idle when fewer than 1600 samples (100 ms at 16 kHz) were
captured, or hands the audio to the transcription worker. -/
def on_recording_stopped (s : LocalWhisperApp) : LocalWhisperApp :=
  if ¬ s.is_recording then s
  else
    let s1 := {s with is_recording := false, is_processing := true}
    let r := stop_recording s1.audio_engine
    let s2 := {s1 with audio_engine := r.2}
    if r.1.length < 1600 then {s2 with is_processing := false}
    else {s2 with dispatched := s2.dispatched ++ [r.1]}

/-- Embedding of `LocalWhisperApp._toggle_recording`: activations during
processing are dropped outright; otherwise the toggle stops or starts a
recording. -/
def toggle_recording (s : LocalWhisperApp) : LocalWhisperApp :=
  if s.is_processing then s
  else if s.is_recording then on_recording_stopped s
  else on_recording_started s

/-- Embedding of `LocalWhisperApp._on_transcription_complete`: leaves
processing; blank text is discarded; otherwise the text is injected once
and one history entry is added, whose duration is computed from
`get_current_audio()` *after* `stop_recording` already cleared the buffer,
and whose confidence is the hard-coded `0.9`. -/
def on_transcription_complete (s : LocalWhisperApp) (text : PyStr) : LocalWhisperApp :=
  let s1 := {s with is_processing := false}
  if pyStrip text = [] then s1
  else
    let s2 := {s1 with injections := s1.injections ++ [text]}
    {s2 with history := s2.history ++
      [⟨text, ((get_current_audio s2.audio_engine).length : ℚ) / 16000, 9/10,
        s2.config_language, s2.config_model_name⟩]}

/-- Embedding of `LocalWhisperApp._on_transcription_error`: leaves
processing (sound/overlay/tray error display omitted). -/
def on_transcription_error (s : LocalWhisperApp) (_msg : PyStr) : LocalWhisperApp :=
  {s with is_processing := false}

/-- The serialized events the orchestrator consumes. -/
inductive AppEvent
  | toggle
  | chunk (indata : List ℚ)
  | complete (text : PyStr)
  | error (msg : PyStr)

/-- One orchestrator event. -/
def app_step (s : LocalWhisperApp) : AppEvent → LocalWhisperApp
  | .toggle => toggle_recording s
  | .chunk d => {s with audio_engine := capture_chunk s.audio_engine d}
  | .complete t => on_transcription_complete s t
  | .error msg => on_transcription_error s msg

/-- A whole event sequence. -/
def app_run (s : LocalWhisperApp) (es : List AppEvent) : LocalWhisperApp :=
  es.foldl app_step s

/-! Theorems. -/

example : pySplit '+' ("alt+s".toList) = ["alt".toList, "s".toList] := by decide

example : pySplit '+' [] = [[]] := by decide

example : pySplit '+' ("+".toList) = [[], []] := by decide

example : pyJoin '+' ["alt".toList, "s".toList] = "alt+s".toList := by decide

/-! Basic facts about the string model. -/

theorem pyJoin_singleton (sep : Char) (p : PyStr) : pyJoin sep [p] = p := by
  simp [pyJoin, List.intercalate]

theorem pyJoin_cons_cons (sep : Char) (p q : PyStr) (qs : List PyStr) :
    pyJoin sep (p :: q :: qs) = p ++ sep :: pyJoin sep (q :: qs) := by
  simp [pyJoin, List.intercalate]

theorem not_pred_of_mem_splitOnP {p : Char → Bool} {xs l : List Char}
    (hl : l ∈ xs.splitOnP p) {c : Char} (hc : c ∈ l) : ¬ p c = true := by
  induction xs generalizing l with
  | nil =>
    simp only [List.splitOnP_nil, List.mem_singleton] at hl
    subst hl; simp at hc
  | cons x xs ih =>
    rw [List.splitOnP_cons] at hl
    by_cases hx : p x
    · rw [if_pos hx] at hl
      rcases List.mem_cons.mp hl with rfl | hl
      · simp at hc
      · exact ih hl hc
    · rw [if_neg hx] at hl
      rcases hs : xs.splitOnP p with _ | ⟨h, t⟩
      · exact absurd hs (List.splitOnP_ne_nil p xs)
      · rw [hs] at hl
        simp only [List.modifyHead, List.mem_cons] at hl
        rcases hl with rfl | hl
        · rcases List.mem_cons.mp hc with rfl | hc
          · exact hx
          · exact ih (by rw [hs]; exact List.mem_cons_self h t) hc
        · exact ih (by rw [hs]; exact List.mem_cons_of_mem h hl) hc

theorem mem_of_mem_splitOnP {p : Char → Bool} {xs l : List Char}
    (hl : l ∈ xs.splitOnP p) {c : Char} (hc : c ∈ l) : c ∈ xs := by
  induction xs generalizing l with
  | nil =>
    simp only [List.splitOnP_nil, List.mem_singleton] at hl
    subst hl; simp at hc
  | cons x xs ih =>
    rw [List.splitOnP_cons] at hl
    by_cases hx : p x
    · rw [if_pos hx] at hl
      rcases List.mem_cons.mp hl with rfl | hl
      · simp at hc
      · exact List.mem_cons_of_mem x (ih hl hc)
    · rw [if_neg hx] at hl
      rcases hs : xs.splitOnP p with _ | ⟨h, t⟩
      · exact absurd hs (List.splitOnP_ne_nil p xs)
      · rw [hs] at hl
        simp only [List.modifyHead, List.mem_cons] at hl
        rcases hl with rfl | hl
        · rcases List.mem_cons.mp hc with rfl | hc
          · exact List.mem_cons_self c xs
          · exact List.mem_cons_of_mem x
              (ih (by rw [hs]; exact List.mem_cons_self h t) hc)
        · exact List.mem_cons_of_mem x
            (ih (by rw [hs]; exact List.mem_cons_of_mem h hl) hc)

theorem sep_not_mem_of_mem_pySplit {sep : Char} {s p : PyStr}
    (hp : p ∈ pySplit sep s) : sep ∉ p := by
  intro hmem
  exact not_pred_of_mem_splitOnP hp hmem (by simp)

theorem mem_of_mem_pySplit {sep : Char} {s p : PyStr} {c : Char}
    (hp : p ∈ pySplit sep s) (hc : c ∈ p) : c ∈ s :=
  mem_of_mem_splitOnP hp hc

theorem pySplit_pyJoin {sep : Char} {parts : List PyStr}
    (hne : parts ≠ []) (hsep : ∀ p ∈ parts, sep ∉ p) :
    pySplit sep (pyJoin sep parts) = parts :=
  List.splitOn_intercalate parts sep hsep hne

theorem mem_pyJoin {sep : Char} {parts : List PyStr} {c : Char}
    (hc : c ∈ pyJoin sep parts) : c = sep ∨ ∃ p ∈ parts, c ∈ p := by
  induction parts with
  | nil => simp [pyJoin, List.intercalate] at hc
  | cons p ps ih =>
    cases ps with
    | nil =>
      rw [pyJoin_singleton] at hc
      exact Or.inr ⟨p, List.mem_cons_self p [], hc⟩
    | cons q qs =>
      rw [pyJoin_cons_cons] at hc
      rcases List.mem_append.mp hc with h | h
      · exact Or.inr ⟨p, List.mem_cons_self p _, h⟩
      · rcases List.mem_cons.mp h with rfl | h
        · exact Or.inl rfl
        · rcases ih h with h | ⟨r, hr, hcr⟩
          · exact Or.inl h
          · exact Or.inr ⟨r, List.mem_cons_of_mem p hr, hcr⟩

/-! Lower-casing facts. -/

theorem char_toNat_ofNat {n : Nat} (h : n.isValidChar) : (Char.ofNat n).toNat = n := by
  rw [Char.ofNat, dif_pos h]
  rfl

theorem toLower_toLower (c : Char) : c.toLower.toLower = c.toLower := by
  unfold Char.toLower
  by_cases h : c.toNat ≥ 65 ∧ c.toNat ≤ 90
  · rw [if_pos h]
    have hvalid : (c.toNat + 32).isValidChar := by
      left
      omega
    have htn : (Char.ofNat (c.toNat + 32)).toNat = c.toNat + 32 := char_toNat_ofNat hvalid
    rw [if_neg]
    rw [htn]
    omega
  · rw [if_neg h, if_neg h]

theorem pyLower_eq_self_of_forall {s : PyStr} (h : ∀ c ∈ s, c.toLower = c) :
    pyLower s = s := by
  unfold pyLower
  induction s with
  | nil => rfl
  | cons c cs ih =>
    simp only [List.map_cons, h c (List.mem_cons_self c cs),
      ih (fun x hx => h x (List.mem_cons_of_mem c hx))]

theorem removeSpaces_eq_self_of_forall {s : PyStr} (h : ∀ c ∈ s, c ≠ ' ') :
    removeSpaces s = s := by
  unfold removeSpaces
  rw [List.filter_eq_self]
  intro a ha
  simpa using h a ha

theorem mem_pyLower {s : PyStr} {c : Char} (h : c ∈ pyLower s) :
    ∃ x ∈ s, c = x.toLower := by
  unfold pyLower at h
  rcases List.mem_map.mp h with ⟨x, hx, hxc⟩
  exact ⟨x, hx, hxc.symm⟩

theorem mem_removeSpaces {s : PyStr} {c : Char} (h : c ∈ removeSpaces s) :
    c ∈ s ∧ c ≠ ' ' := by
  unfold removeSpaces at h
  have := List.of_mem_filter h
  exact ⟨List.mem_of_mem_filter h, by simpa using this⟩

theorem mem_pySorted {s : Finset PyStr} {x : PyStr} : x ∈ pySorted s ↔ x ∈ s := by
  rcases s with ⟨m, hm⟩
  induction m using Quot.inductionOn with
  | h l =>
    show x ∈ List.insertionSort strLe l ↔ _
    rw [(List.perm_insertionSort strLe l).mem_iff]
    rfl

example :
    HotkeyCombo.from_string false ("alt+s".toList) =
      some ⟨{"alt".toList}, "s".toList⟩ := by decide

example :
    HotkeyCombo.from_string false ("Ctrl + Shift+R".toList) =
      some ⟨{"ctrl".toList, "shift".toList}, "r".toList⟩ := by decide

example : HotkeyCombo.from_string false ("alt+ctrl".toList) = none := by decide

example :
    HotkeyCombo.to_string ⟨{"shift".toList, "ctrl".toList}, "r".toList⟩ =
      "ctrl+shift+r".toList := by decide

example :
    HotkeyCombo.from_string true ("meta+x".toList) =
      some ⟨{"cmd".toList}, "x".toList⟩ := by decide

theorem parts_good (s : PyStr) :
    ∀ p ∈ pySplit '+' (removeSpaces (pyLower s)), goodStr p := by
  intro p hp c hc
  refine ⟨?_, ?_, ?_⟩
  · rcases mem_pyLower (mem_removeSpaces (mem_of_mem_pySplit hp hc)).1 with ⟨x, _, rfl⟩
    exact toLower_toLower x
  · exact (mem_removeSpaces (mem_of_mem_pySplit hp hc)).2
  · intro hceq
    exact sep_not_mem_of_mem_pySplit hp (hceq ▸ hc)

theorem normalize_mem_normalized {darwin : Bool} {part : PyStr}
    (h : part ∈ modifier_names) :
    normalize_modifier darwin part ∈ normalized_names darwin := by
  simp only [modifier_names, List.mem_cons, List.not_mem_nil, or_false] at h
  rcases h with rfl | rfl | rfl | rfl | rfl | rfl | rfl <;>
    cases darwin <;> decide

theorem normalized_props {darwin : Bool} {m : PyStr}
    (h : m ∈ normalized_names darwin) :
    m ∈ modifier_names ∧ normalize_modifier darwin m = m ∧ goodStr m := by
  cases darwin <;>
  · simp only [normalized_names, List.mem_cons, List.not_mem_nil, or_false] at h
    rcases h with rfl | rfl | rfl | rfl <;> refine ⟨by decide, by decide, by decide⟩

theorem parse_foldl_inv (darwin : Bool) (parts : List PyStr)
    (acc : Finset PyStr × Option PyStr)
    (hmods : ∀ m ∈ acc.1, m ∈ normalized_names darwin)
    (hkey : ∀ k, acc.2 = some k → goodStr k ∧ k ∉ modifier_names)
    (hparts : ∀ p ∈ parts, goodStr p) :
    (∀ m ∈ (parts.foldl (HotkeyCombo.parse_step darwin) acc).1,
        m ∈ normalized_names darwin) ∧
    (∀ k, (parts.foldl (HotkeyCombo.parse_step darwin) acc).2 = some k →
        goodStr k ∧ k ∉ modifier_names) := by
  induction parts generalizing acc with
  | nil => exact ⟨hmods, hkey⟩
  | cons p ps ih =>
    rw [List.foldl_cons]
    by_cases hpmod : p ∈ modifier_names
    · refine ih _ ?_ ?_ (fun q hq => hparts q (List.mem_cons_of_mem p hq))
      · intro m hm
        rw [HotkeyCombo.parse_step, if_pos hpmod] at hm
        rcases Finset.mem_insert.mp hm with rfl | hm
        · exact normalize_mem_normalized hpmod
        · exact hmods m hm
      · intro k hk
        rw [HotkeyCombo.parse_step, if_pos hpmod] at hk
        exact hkey k hk
    · refine ih _ ?_ ?_ (fun q hq => hparts q (List.mem_cons_of_mem p hq))
      · intro m hm
        rw [HotkeyCombo.parse_step, if_neg hpmod] at hm
        exact hmods m hm
      · intro k hk
        rw [HotkeyCombo.parse_step, if_neg hpmod] at hk
        have hpk : p = k := Option.some.inj hk
        subst hpk
        exact ⟨hparts p (List.mem_cons_self p ps), hpmod⟩

theorem parse_foldl_mods (darwin : Bool) (ms : List PyStr)
    (acc : Finset PyStr × Option PyStr)
    (h : ∀ m ∈ ms, m ∈ modifier_names ∧ normalize_modifier darwin m = m) :
    ms.foldl (HotkeyCombo.parse_step darwin) acc = (acc.1 ∪ ms.toFinset, acc.2) := by
  induction ms generalizing acc with
  | nil => simp
  | cons m ms ih =>
    rw [List.foldl_cons]
    have hm := h m (List.mem_cons_self m ms)
    rw [HotkeyCombo.parse_step, if_pos hm.1, hm.2]
    rw [ih _ (fun q hq => h q (List.mem_cons_of_mem m hq))]
    refine Prod.ext ?_ rfl
    show insert m acc.1 ∪ ms.toFinset = acc.1 ∪ (m :: ms).toFinset
    rw [List.toFinset_cons, Finset.insert_union, Finset.union_insert]

/-- Claim C5 — parsing is a left inverse of printing on the image of
parsing: a `HotkeyCombo` obtained from any string (on either platform)
re-parses from its own string representation to an equal combo, where
combo equality compares the modifier set and the primary key. -/
theorem from_string_to_string_roundtrip (darwin : Bool) (s : PyStr)
    (c : HotkeyCombo) (h : HotkeyCombo.from_string darwin s = some c) :
    HotkeyCombo.from_string darwin (HotkeyCombo.to_string c) = some c := by
  unfold HotkeyCombo.from_string HotkeyCombo.finish at h
  rcases hk : (HotkeyCombo.parse_parts darwin
      (pySplit '+' (removeSpaces (pyLower s)))).2 with _ | k
  · rw [hk] at h
    cases h
  · rw [hk] at h
    simp only [Option.some.injEq] at h
    subst h
    have hinv := parse_foldl_inv darwin (pySplit '+' (removeSpaces (pyLower s)))
      (∅, none) (by simp) (by simp) (parts_good s)
    have hmods : ∀ m ∈ (HotkeyCombo.parse_parts darwin
        (pySplit '+' (removeSpaces (pyLower s)))).1, m ∈ normalized_names darwin :=
      hinv.1
    have hkey : goodStr k ∧ k ∉ modifier_names := hinv.2 k hk
    set mods := (HotkeyCombo.parse_parts darwin
      (pySplit '+' (removeSpaces (pyLower s)))).1 with hmodsdef
    clear hinv hk hmodsdef
    have hL : ∀ m ∈ pySorted mods, m ∈ normalized_names darwin := by
      intro m hm
      exact hmods m (mem_pySorted.mp hm)
    have hgoodparts : ∀ p ∈ pySorted mods ++ [k], goodStr p := by
      intro p hp
      rcases List.mem_append.mp hp with hp | hp
      · exact (normalized_props (hL p hp)).2.2
      · rw [List.mem_singleton] at hp
        subst hp
        exact hkey.1
    have hnoplus : ∀ p ∈ pySorted mods ++ [k], '+' ∉ p := by
      intro p hp hin
      exact (hgoodparts p hp '+' hin).2.2 rfl
    have hT : HotkeyCombo.to_string ⟨mods, k⟩ = pyJoin '+' (pySorted mods ++ [k]) := rfl
    have hlow : pyLower (HotkeyCombo.to_string ⟨mods, k⟩) =
        HotkeyCombo.to_string ⟨mods, k⟩ := by
      apply pyLower_eq_self_of_forall
      intro ch hch
      rw [hT] at hch
      rcases mem_pyJoin hch with rfl | ⟨p, hp, hcp⟩
      · decide
      · exact (hgoodparts p hp ch hcp).1
    have hsp : removeSpaces (HotkeyCombo.to_string ⟨mods, k⟩) =
        HotkeyCombo.to_string ⟨mods, k⟩ := by
      apply removeSpaces_eq_self_of_forall
      intro ch hch
      rw [hT] at hch
      rcases mem_pyJoin hch with rfl | ⟨p, hp, hcp⟩
      · decide
      · exact (hgoodparts p hp ch hcp).2.1
    have hsplit : pySplit '+' (HotkeyCombo.to_string ⟨mods, k⟩) =
        pySorted mods ++ [k] := by
      rw [hT]
      exact pySplit_pyJoin (by simp) hnoplus
    unfold HotkeyCombo.from_string
    rw [hlow, hsp, hsplit]
    unfold HotkeyCombo.parse_parts
    rw [List.foldl_append]
    rw [parse_foldl_mods darwin (pySorted mods) (∅, none)
      (fun m hm => ⟨(normalized_props (hL m hm)).1, (normalized_props (hL m hm)).2.1⟩)]
    rw [List.foldl_cons, List.foldl_nil]
    rw [HotkeyCombo.parse_step, if_neg hkey.2]
    have htf : (∅ ∪ (pySorted mods).toFinset, (none : Option PyStr)).1 = mods := by
      rw [Finset.empty_union]
      ext x
      rw [List.mem_toFinset, mem_pySorted]
    unfold HotkeyCombo.finish
    simp only at htf ⊢
    rw [htf]

/-- Witness for C5: the round trip at the concrete combo string
`"ctrl+alt+r"`, with every hypothesis discharged by evaluation. -/
theorem from_string_to_string_roundtrip_witness :
    HotkeyCombo.from_string false ("ctrl+alt+r".toList) =
      some ⟨{"alt".toList, "ctrl".toList}, "r".toList⟩ ∧
    HotkeyCombo.from_string false
        (HotkeyCombo.to_string ⟨{"alt".toList, "ctrl".toList}, "r".toList⟩) =
      some ⟨{"alt".toList, "ctrl".toList}, "r".toList⟩ :=
  ⟨by decide,
   from_string_to_string_roundtrip false ("ctrl+alt+r".toList) _ (by decide)⟩

/-! Claim C8 — when parsing fails.  The parse loop treats every token that
is not a recognized modifier as the primary key (the last such token wins),
so the only failure mode is a string whose tokens are all recognized
modifiers; unrecognized "modifier" tokens are silently accepted. -/

theorem parse_foldl_none_iff (darwin : Bool) (parts : List PyStr)
    (acc : Finset PyStr × Option PyStr) :
    (parts.foldl (HotkeyCombo.parse_step darwin) acc).2 = none ↔
      acc.2 = none ∧ ∀ p ∈ parts, p ∈ modifier_names := by
  induction parts generalizing acc with
  | nil => simp
  | cons p ps ih =>
    rw [List.foldl_cons]
    by_cases hpmod : p ∈ modifier_names
    · rw [ih]
      rw [HotkeyCombo.parse_step, if_pos hpmod]
      simp [hpmod]
    · rw [ih]
      rw [HotkeyCombo.parse_step, if_neg hpmod]
      simp [hpmod]

/-- Claim C8 (corrected) — `from_string` fails (raises `ValueError`,
modelled as `none`) exactly when every token of the normalized string is a
recognized modifier name, i.e. when no primary key is present.  In
particular a string containing an unrecognized modifier token never fails:
the unrecognized token is taken as the primary key instead. -/
theorem from_string_none_iff (darwin : Bool) (s : PyStr) :
    HotkeyCombo.from_string darwin s = none ↔
      ∀ p ∈ pySplit '+' (removeSpaces (pyLower s)), p ∈ modifier_names := by
  unfold HotkeyCombo.from_string
  constructor
  · intro h
    rcases hk : (HotkeyCombo.parse_parts darwin
        (pySplit '+' (removeSpaces (pyLower s)))).2 with _ | k
    · exact ((parse_foldl_none_iff darwin _ (∅, none)).mp hk).2
    · rw [HotkeyCombo.finish, hk] at h
      cases h
  · intro h
    have hk : (HotkeyCombo.parse_parts darwin
        (pySplit '+' (removeSpaces (pyLower s)))).2 = none :=
      (parse_foldl_none_iff darwin _ (∅, none)).mpr ⟨rfl, h⟩
    rw [HotkeyCombo.finish, hk]

/-- Counterexample for C8 as stated: `"ctrl+foo+s"` contains the token
`"foo"`, which is not a recognized modifier, yet parsing succeeds (no
error is raised) — `"foo"` is simply overwritten by the later token
`"s"` in the primary-key slot. -/
theorem from_string_unrecognized_token_accepted :
    HotkeyCombo.from_string false ("ctrl+foo+s".toList) =
      some ⟨{"ctrl".toList}, "s".toList⟩ := by decide

/-- Witness for the corrected C8: the modifier-only string `"ctrl+alt"`
fails to parse. -/
theorem from_string_none_iff_witness :
    HotkeyCombo.from_string false ("ctrl+alt".toList) = none :=
  (from_string_none_iff false ("ctrl+alt".toList)).mpr (by decide)

/-- Claim C3 — a release of the primary key while the hotkey is active is
ignored entirely (no callback, hotkey stays active) when handled strictly
before `min_hold_time` has elapsed since activation, and deactivates the
hotkey with exactly one release callback otherwise; the boundary
`now - activation_time = min_hold_time` deactivates, because the
spurious-release guard is the strict comparison `elapsed < min_hold_time`. -/
theorem release_min_hold_time (darwin : Bool) (m : HotkeyManager)
    (k : PynputKey) (t' : ℚ)
    (hmod : get_modifier_name darwin k = none)
    (hmatch : matches_pynput_key m.hotkey k = true)
    (hactive : m.hotkey_active = true) :
    (t' - m.activation_time < m.min_hold_time →
      handle_release darwin m k t' = (m, [])) ∧
    (m.min_hold_time ≤ t' - m.activation_time →
      handle_release darwin m k t' =
        ({m with hotkey_active := false, activation_time := 0},
          [CbEvent.deactivated])) := by
  constructor
  · intro hlt
    unfold handle_release
    rw [hmod]
    simp only [hmatch, if_true, hactive, if_true]
    unfold trigger_release
    rw [hactive]
    simp only [if_true, if_pos hlt]
  · intro hge
    unfold handle_release
    rw [hmod]
    simp only [hmatch, if_true, hactive, if_true]
    unfold trigger_release
    rw [hactive]
    simp only [if_true, if_neg (not_lt.mpr hge)]

/-- Witness for C3: with the default 150 ms hold threshold and activation
at time 0, a release of the matching key (`vk` 83, the letter S) handled
at 100 ms is ignored, while one handled at exactly 150 ms (the boundary)
deactivates and fires the callback once. -/
theorem release_min_hold_time_witness :
    handle_release false ⟨⟨∅, "s".toList⟩, ∅, true, 0, 3/20⟩
        (PynputKey.keycode 83 none) (1/10) =
      (⟨⟨∅, "s".toList⟩, ∅, true, 0, 3/20⟩, []) ∧
    handle_release false ⟨⟨∅, "s".toList⟩, ∅, true, 0, 3/20⟩
        (PynputKey.keycode 83 none) (3/20) =
      (⟨⟨∅, "s".toList⟩, ∅, false, 0, 3/20⟩, [CbEvent.deactivated]) :=
  ⟨(release_min_hold_time false ⟨⟨∅, "s".toList⟩, ∅, true, 0, 3/20⟩
      (PynputKey.keycode 83 none) (1/10) (by decide) (by decide) rfl).1
     (by norm_num),
   (release_min_hold_time false ⟨⟨∅, "s".toList⟩, ∅, true, 0, 3/20⟩
      (PynputKey.keycode 83 none) (3/20) (by decide) (by decide) rfl).2
     (by norm_num)⟩

/-- Claim C4 — if at every press of the primary key the held modifier set
is not exactly the combo's modifier set (a required modifier missing or an
extra one held), the `Activated` (press) callback never fires over the
whole sequence; moreover a modifier-only press or release by itself never
invokes either callback. -/
theorem no_activation_without_full_modifiers (darwin : Bool)
    (m : HotkeyManager) (es : List KeyEvent)
    (h : no_full_match darwin m es) :
    CbEvent.activated ∉ (hm_run darwin m es).2 ∧
    (∀ k md now, get_modifier_name darwin k = some md →
      (hm_step darwin m (KeyEvent.press k now)).2 = [] ∧
      (hm_step darwin m (KeyEvent.release k now)).2 = []) := by
  constructor
  · induction es generalizing m with
    | nil => simp [hm_run]
    | cons e es ih =>
      rcases h with ⟨he, hrest⟩
      unfold hm_run
      intro hmem
      rcases List.mem_append.mp hmem with hmem | hmem
      · rcases e with ⟨k, now⟩ | ⟨k, now⟩
        · simp only [hm_step] at hmem
          unfold handle_press at hmem
          rcases hmod : get_modifier_name darwin k with _ | md
          · rw [hmod] at hmem
            by_cases hmatch : matches_pynput_key m.hotkey k
            · rw [if_pos hmatch] at hmem
              rw [if_neg (he hmod hmatch)] at hmem
              simp at hmem
            · rw [if_neg hmatch] at hmem
              simp at hmem
          · rw [hmod] at hmem
            simp at hmem
        · simp only [hm_step] at hmem
          unfold handle_release at hmem
          rcases hmod : get_modifier_name darwin k with _ | md
          · rw [hmod] at hmem
            by_cases hmatch : matches_pynput_key m.hotkey k
            · rw [if_pos hmatch] at hmem
              by_cases hact : m.hotkey_active
              · rw [if_pos hact] at hmem
                unfold trigger_release at hmem
                rw [if_pos hact] at hmem
                by_cases hlt : now - m.activation_time < m.min_hold_time
                · rw [if_pos hlt] at hmem
                  simp at hmem
                · rw [if_neg hlt] at hmem
                  simp at hmem
              · rw [if_neg hact] at hmem
                simp at hmem
            · rw [if_neg hmatch] at hmem
              simp at hmem
          · rw [hmod] at hmem
            simp at hmem
      · exact ih _ hrest hmem
  · intro k md now hmod
    constructor
    · simp only [hm_step]
      unfold handle_press
      rw [hmod]
    · simp only [hm_step]
      unfold handle_release
      rw [hmod]

/-- Witness for C4: pressing the primary key (`vk` 83) with no modifiers
held, against the combo `alt+s`, never fires the press callback. -/
theorem no_activation_without_full_modifiers_witness :
    CbEvent.activated ∉
      (hm_run false ⟨⟨{"alt".toList}, "s".toList⟩, ∅, false, 0, 3/20⟩
        [KeyEvent.press (PynputKey.keycode 83 none) 0]).2 :=
  (no_activation_without_full_modifiers false
      ⟨⟨{"alt".toList}, "s".toList⟩, ∅, false, 0, 3/20⟩
      [KeyEvent.press (PynputKey.keycode 83 none) 0]
      ⟨fun _ _ => by decide, trivial⟩).1

/-- Claim C6 — `stop_recording` while not recording returns an empty
sample sequence with the engine untouched (the guard returns before any
fallible operation, so nothing can raise); while recording it returns the
buffered samples as an independent copy and clears the buffer for reuse. -/
theorem stop_recording_spec (e : AudioEngine) :
    (e.is_recording = false → stop_recording e = ([], e)) ∧
    (e.is_recording = true →
      stop_recording e =
        (e.audio_buffer, {e with is_recording := false, audio_buffer := []})) := by
  constructor
  · intro h
    unfold stop_recording
    rw [if_pos (by rw [h]; exact Bool.false_ne_true)]
  · intro h
    unfold stop_recording
    rw [if_neg (by rw [h]; simp)]

/-- Witness for C6: a non-recording engine with residual buffer contents
yields `[]` and is unchanged; a recording engine with three samples yields
them and is cleared. -/
theorem stop_recording_spec_witness :
    stop_recording ⟨16000, 1, false, [5, 7]⟩ = ([], ⟨16000, 1, false, [5, 7]⟩) ∧
    stop_recording ⟨16000, 1, true, [1, 2, 3]⟩ =
      ([1, 2, 3], ⟨16000, 1, false, []⟩) :=
  ⟨(stop_recording_spec ⟨16000, 1, false, [5, 7]⟩).1 rfl,
   (stop_recording_spec ⟨16000, 1, true, [1, 2, 3]⟩).2 rfl⟩

/-- Claim C1 — while a transcription is in flight (`_is_processing`),
every toggle (activation) event is dropped without any state change at
all: no recording starts, nothing is dispatched to the worker and nothing
is queued for later, so a completed recording session dispatches exactly
one `transcribe` call no matter how many activations arrive before the
completion or failure event. -/
theorem toggles_dropped_while_processing (s : LocalWhisperApp)
    (es : List AppEvent)
    (hproc : s.is_processing = true)
    (htoggles : ∀ e ∈ es, e = AppEvent.toggle) :
    app_run s es = s := by
  induction es with
  | nil => rfl
  | cons e es ih =>
    have he := htoggles e (List.mem_cons_self e es)
    subst he
    unfold app_run
    rw [List.foldl_cons]
    have hstep : app_step s AppEvent.toggle = s := by
      show toggle_recording s = s
      unfold toggle_recording
      rw [if_pos (by rw [hproc])]
    rw [hstep]
    exact ih (fun e h => htoggles e (List.mem_cons_of_mem _ h))

/-- Witness for C1: a processing app sees two further activation events
and is bit-for-bit unchanged. -/
theorem toggles_dropped_while_processing_witness :
    app_run ⟨false, true, ⟨16000, 1, false, []⟩, [[0]], [], [],
        "en".toList, "base".toList⟩
      [AppEvent.toggle, AppEvent.toggle] =
    ⟨false, true, ⟨16000, 1, false, []⟩, [[0]], [], [],
        "en".toList, "base".toList⟩ :=
  toggles_dropped_while_processing
    ⟨false, true, ⟨16000, 1, false, []⟩, [[0]], [], [],
        "en".toList, "base".toList⟩
    [AppEvent.toggle, AppEvent.toggle] rfl
    (by
      intro e h
      rcases List.mem_cons.mp h with rfl | h2
      · rfl
      · rcases List.mem_cons.mp h2 with rfl | h3
        · rfl
        · exact absurd h3 (List.not_mem_nil e))

/-- Claim C2 — when a toggle stops an ongoing recording, a captured
segment of fewer than 1600 samples (strictly less than 100 ms at 16 kHz)
is never handed to the worker and the app returns directly to idle, while
a segment of 1600 samples (100 ms) or more is dispatched exactly once and
the app enters processing. -/
theorem stop_dispatch_threshold (s : LocalWhisperApp)
    (hrec : s.is_recording = true) (hproc : s.is_processing = false)
    (heng : s.audio_engine.is_recording = true) :
    (s.audio_engine.audio_buffer.length < 1600 →
      app_step s AppEvent.toggle =
        {s with
          is_recording := false
          is_processing := false
          audio_engine := {s.audio_engine with is_recording := false, audio_buffer := []}}) ∧
    (1600 ≤ s.audio_engine.audio_buffer.length →
      app_step s AppEvent.toggle =
        {s with
          is_recording := false
          is_processing := true
          audio_engine := {s.audio_engine with is_recording := false, audio_buffer := []}
          dispatched := s.dispatched ++ [s.audio_engine.audio_buffer]}) := by
  have hstep : app_step s AppEvent.toggle = on_recording_stopped s := by
    show toggle_recording s = _
    unfold toggle_recording
    rw [if_neg (by rw [hproc]; exact Bool.false_ne_true), if_pos (by rw [hrec])]
  have hstop : stop_recording s.audio_engine =
      (s.audio_engine.audio_buffer,
        {s.audio_engine with is_recording := false, audio_buffer := []}) := by
    unfold stop_recording
    rw [if_neg (by rw [heng]; simp)]
  constructor
  · intro hlen
    rw [hstep]
    unfold on_recording_stopped
    rw [if_neg (by rw [hrec]; simp)]
    simp only [hstop, if_pos hlen]
  · intro hlen
    rw [hstep]
    unfold on_recording_stopped
    rw [if_neg (by rw [hrec]; simp)]
    simp only [hstop, if_neg (not_lt.mpr hlen)]

/-- Witness for C2: a 99 ms segment (1584 samples) skips transcription and
returns to idle; a 101 ms segment (1616 samples) is dispatched. -/
theorem stop_dispatch_threshold_witness :
    app_step ⟨true, false, ⟨16000, 1, true, List.replicate 1584 0⟩, [], [], [],
        "en".toList, "base".toList⟩ AppEvent.toggle =
      ⟨false, false, ⟨16000, 1, false, []⟩, [], [], [],
        "en".toList, "base".toList⟩ ∧
    app_step ⟨true, false, ⟨16000, 1, true, List.replicate 1616 0⟩, [], [], [],
        "en".toList, "base".toList⟩ AppEvent.toggle =
      ⟨false, true, ⟨16000, 1, false, []⟩, [List.replicate 1616 0], [], [],
        "en".toList, "base".toList⟩ :=
  ⟨(stop_dispatch_threshold
      ⟨true, false, ⟨16000, 1, true, List.replicate 1584 0⟩, [], [], [],
        "en".toList, "base".toList⟩ rfl rfl rfl).1
      (by rw [List.length_replicate]; omega),
   (stop_dispatch_threshold
      ⟨true, false, ⟨16000, 1, true, List.replicate 1616 0⟩, [], [], [],
        "en".toList, "base".toList⟩ rfl rfl rfl).2
      (by rw [List.length_replicate]; omega)⟩

/-- Claim C9 — with both settings `"auto"`, the configuration cached on a
freshly constructed engine follows the policy: CUDA available with at
least 8 GiB reported memory gives `("cuda", "float16")`; CUDA available
with less gives `("cuda", "int8")`; no usable GPU gives
`("cpu", "int8")`.  The last conjunct states the caching: `load_model`
never changes the resolved device or compute type of any engine. -/
theorem auto_detect_policy (env : TorchEnv)
    (hprops : env.device_props_ok = true) :
    (env.torch_available = true → env.cuda_available = true →
      8 ≤ env.gpu_mem_gb →
      (mk_engine env ("auto".toList) ("auto".toList)).device = "cuda".toList ∧
      (mk_engine env ("auto".toList) ("auto".toList)).compute_type =
        "float16".toList) ∧
    (env.torch_available = true → env.cuda_available = true →
      env.gpu_mem_gb < 8 →
      (mk_engine env ("auto".toList) ("auto".toList)).device = "cuda".toList ∧
      (mk_engine env ("auto".toList) ("auto".toList)).compute_type =
        "int8".toList) ∧
    (env.torch_available = false ∨ env.cuda_available = false →
      (mk_engine env ("auto".toList) ("auto".toList)).device = "cpu".toList ∧
      (mk_engine env ("auto".toList) ("auto".toList)).compute_type =
        "int8".toList) ∧
    (∀ (eng : TranscriptionEngine) (name : PyStr),
      (load_model eng name).device = eng.device ∧
      (load_model eng name).compute_type = eng.compute_type) := by
  refine ⟨?_, ?_, ?_, ?_⟩
  · intro ht hc hm
    unfold mk_engine detect_compute_config detect_device detect_compute_type
    simp [ht, hc, hprops, hm]
  · intro ht hc hm
    unfold mk_engine detect_compute_config detect_device detect_compute_type
    simp [ht, hc, hprops, not_le.mpr hm]
  · intro h
    have hnc : ¬ (env.torch_available = true ∧ env.cuda_available = true) := by
      rcases h with h | h <;> simp [h]
    unfold mk_engine detect_compute_config detect_device detect_compute_type
    simp [hnc]
  · intro eng name
    unfold load_model
    by_cases h : eng.is_loaded = true ∧ eng.model_name = some name
    · rw [if_pos h]
      exact ⟨rfl, rfl⟩
    · rw [if_neg (by simpa using h)]
      exact ⟨rfl, rfl⟩

/-- Witness for C9: a CUDA environment reporting exactly 8 GiB resolves
to half precision, one reporting 6 GiB to int8, and a torch-less
environment to CPU int8. -/
theorem auto_detect_policy_witness :
    ((mk_engine ⟨true, true, true, 8⟩ ("auto".toList) ("auto".toList)).device =
        "cuda".toList ∧
      (mk_engine ⟨true, true, true, 8⟩ ("auto".toList) ("auto".toList)).compute_type =
        "float16".toList) ∧
    ((mk_engine ⟨true, true, true, 6⟩ ("auto".toList) ("auto".toList)).compute_type =
        "int8".toList) ∧
    ((mk_engine ⟨false, false, true, 0⟩ ("auto".toList) ("auto".toList)).device =
        "cpu".toList) :=
  ⟨(auto_detect_policy ⟨true, true, true, 8⟩ rfl).1 rfl rfl (by norm_num),
   ((auto_detect_policy ⟨true, true, true, 6⟩ rfl).2.1 rfl rfl (by norm_num)).2,
   ((auto_detect_policy ⟨false, false, true, 0⟩ rfl).2.2.1 (Or.inl rfl)).1⟩

/-- Claim C10 — when the model yields no segments (e.g. VAD filtered
everything out), `transcribe` still returns a successful result: the text
is empty and the confidence is exactly `0.0`, because the average is
guarded by `segment_count > 0`; no division by zero can occur and nothing
is raised. -/
theorem transcribe_empty_segments (expf : ℚ → ℚ) (audio_len : Nat)
    (lang : PyStr) (ptime : ℚ) :
    transcribe_aggregate expf [] audio_len lang ptime =
      { text := [], language := lang, confidence := 0,
        duration := (audio_len : ℚ) / 16000, processing_time := ptime,
        is_partial := false } := by
  unfold transcribe_aggregate transcribe_collect
  rfl

/-- Step lemma for the C7 scenario: the activating toggle. -/
theorem scenario_step_start : app_step
    (⟨false, false, ⟨16000, 1, false, []⟩, [], [], [],
      "en".toList, "base".toList⟩ : LocalWhisperApp) AppEvent.toggle =
    ⟨true, false, ⟨16000, 1, true, []⟩, [], [], [],
      "en".toList, "base".toList⟩ := by
  simp [app_step, toggle_recording, on_recording_started, start_recording]

theorem scenario_step_capture (d : List ℚ) (hlen : d.length = 32000) : app_step
    (⟨true, false, ⟨16000, 1, true, []⟩, [], [], [],
      "en".toList, "base".toList⟩ : LocalWhisperApp)
    (AppEvent.chunk d) =
    ⟨true, false, ⟨16000, 1, true, d⟩, [], [], [],
      "en".toList, "base".toList⟩ := by
  show (⟨true, false, capture_chunk ⟨16000, 1, true, []⟩ d, [], [], [],
      "en".toList, "base".toList⟩ : LocalWhisperApp) = _
  unfold capture_chunk
  simp [hlen]

theorem scenario_step_stop (d : List ℚ) (hlen : d.length = 32000) : app_step
    (⟨true, false, ⟨16000, 1, true, d⟩, [], [], [],
      "en".toList, "base".toList⟩ : LocalWhisperApp) AppEvent.toggle =
    ⟨false, true, ⟨16000, 1, false, []⟩, [d], [], [],
      "en".toList, "base".toList⟩ := by
  show toggle_recording _ = _
  unfold toggle_recording on_recording_stopped stop_recording
  simp [hlen]

theorem scenario_step_complete (d : List ℚ) : app_step
    (⟨false, true, ⟨16000, 1, false, []⟩, [d], [], [],
      "en".toList, "base".toList⟩ : LocalWhisperApp)
    (AppEvent.complete ("hello world".toList)) =
    ⟨false, false, ⟨16000, 1, false, []⟩, [d],
      ["hello world".toList],
      [⟨"hello world".toList, 0, 9/10, "en".toList, "base".toList⟩],
      "en".toList, "base".toList⟩ := by
  have hstrip : pyStrip ("hello world".toList) = "hello world".toList := by decide
  simp only [app_step]
  unfold on_transcription_complete get_current_audio
  rw [hstrip]
  simp

/-- Claim C7 evaluated on its own scenario (code bug) — a full session:
activation, 2.0 s of captured audio (32000 samples at 16 kHz), stop, and
a successful transcription of `"hello world"`.  The injection sink does
receive `"hello world"` exactly once and the history sink exactly one
entry — but that entry's duration is `0`, not (approximately) `2.0`,
because `_on_transcription_complete` computes it from
`get_current_audio()` after `stop_recording()` has already cleared the
buffer, and its confidence is the hard-coded `0.9` rather than the
outcome's; the transcription outcome's confidence is not even delivered
to the completion handler (the signal carries only the text). -/
theorem history_duration_zero_scenario :
    app_run
      ⟨false, false, ⟨16000, 1, false, []⟩, [], [], [],
        "en".toList, "base".toList⟩
      [AppEvent.toggle, AppEvent.chunk (List.replicate 32000 (1/2)),
       AppEvent.toggle, AppEvent.complete ("hello world".toList)] =
    ⟨false, false, ⟨16000, 1, false, []⟩, [List.replicate 32000 (1/2)],
      ["hello world".toList],
      [⟨"hello world".toList, 0, 9/10, "en".toList, "base".toList⟩],
      "en".toList, "base".toList⟩ := by
  generalize hd : List.replicate 32000 ((1 : ℚ)/2) = d
  have hlen : d.length = 32000 := by rw [← hd, List.length_replicate]
  show app_run _ _ = _
  unfold app_run
  rw [List.foldl_cons, scenario_step_start, List.foldl_cons,
    scenario_step_capture d hlen, List.foldl_cons, scenario_step_stop d hlen,
    List.foldl_cons, scenario_step_complete d, List.foldl_nil]

end LocalWhisper
